import Mathlib

/-!
Shallow embedding of `src/file_analyzer/analyzer.py` (class `FileAnalyzer`).

The directory walk performed by `os.walk` is modelled as the list of file
entries it yields, in encounter order.  Each entry records the bare filename
(the `file` variable, to which `os.path.splitext` is applied), the joined
full path (`os.path.join(root, file)`), and the result of
`os.path.getsize`: `some n` for an accessible file of `n` bytes, `none`
when the call raises `OSError`.
-/

/-- One file yielded by the `os.walk` traversal. `size = none` models a file
whose `os.path.getsize` raises `OSError` (permission denied, vanished, ...). -/
structure FileEntry where
  name : String
  path : String
  size : Option Nat
deriving DecidableEq, Repr

/-- The extension part of `os.path.splitext` on a bare filename (no path
separators): the suffix starting at the last dot, except that leading dots
of the name never begin an extension. -/
def extChars (cs : List Char) : List Char :=
  let stripped := cs.dropWhile (fun c => c = '.')
  let rev := stripped.reverse
  let tl := rev.takeWhile (fun c => c ≠ '.')
  if tl.length = rev.length then [] else '.' :: tl.reverse

/-- Composition `os.path.splitext(file)[1].lower()`: the lower-cased
extension including its leading dot, or the empty string when the file has
no extension. -/
def extKey (name : String) : String :=
  String.mk ((extChars name.toList).map Char.toLower)

/-- Step `files_by_ext[ext].append(file_path)` on a `defaultdict(list)`:
append to the existing bucket, or create a new bucket at the end (dict
insertion order). -/
def addToGroup : List (String × List String) → String → String → List (String × List String)
  | [], k, v => [(k, [v])]
  | (k', vs) :: rest, k, v =>
    if k' = k then (k', vs ++ [v]) :: rest else (k', vs) :: addToGroup rest k v

/-- The filter test of `get_files_by_extension`:
`extensions is None or ext in extensions`. -/
def keepExt (extensions : Option (List String)) (ext : String) : Bool :=
  match extensions with
  | none => true
  | some l => l.contains ext

/-- Method `FileAnalyzer.get_files_by_extension`: group every walked file by
its lower-cased extension, keeping full paths in encounter order. -/
def get_files_by_extension (extensions : Option (List String)) (ws : List FileEntry) :
    List (String × List String) :=
  ws.foldl
    (fun acc f =>
      let ext := extKey f.name
      if keepExt extensions ext then addToGroup acc ext f.path else acc)
    []

/-- Dict lookup on a grouping, returning `[]` for an absent key (so that the
empty bucket and the absent bucket coincide, which `defaultdict(list)` never
distinguishes in the produced dict). -/
def groupFind (k : String) : List (String × List String) → List String
  | [] => []
  | (k', vs) :: rest => if k' = k then vs else groupFind k rest

/-- Step `extensions_count[ext] += 1` on a `defaultdict(int)`. -/
def bump : List (String × Nat) → String → List (String × Nat)
  | [], k => [(k, 1)]
  | (k', c) :: rest, k =>
    if k' = k then (k', c + 1) :: rest else (k', c) :: bump rest k

/-- Round-half-to-even of a rational to an integer.  This is the rounding
CPython `round` performs on the exact value of its float argument; the
quantities rounded here (`size_bytes / 2^20`, an integer divided by a power
of two) are exactly representable as doubles, so the rational model is
faithful. -/
def roundHalfEven (q : ℚ) : ℤ :=
  let f := Rat.floor q
  let r := q - (f : ℚ)
  if r < 1 / 2 then f
  else if 1 / 2 < r then f + 1
  else if f % 2 = 0 then f else f + 1

/-- Python `round(x, 2)`: round to two decimal places, ties to even. -/
def roundTo2 (q : ℚ) : ℚ :=
  (roundHalfEven (q * 100) : ℚ) / 100

/-- Expression `round(size / (1024 * 1024), 2)` — the one
megabyte-conversion used by both `get_file_stats` and `find_large_files`. -/
def sizeMB (n : Nat) : ℚ :=
  roundTo2 ((n : ℚ) / (1024 * 1024))

/-- The dictionary returned by `FileAnalyzer.get_file_stats`. -/
structure FileStatsSummary where
  total_files : Nat
  total_size_bytes : Nat
  total_size_mb : ℚ
  extensions_count : List (String × Nat)
deriving DecidableEq, Repr

/-- The accumulation loop of `get_file_stats`: state is
`(total_files, total_size, extensions_count)`; an entry whose size lookup
fails is skipped by the `except OSError: continue` branch. -/
def statsLoop : List FileEntry → Nat × Nat × List (String × Nat) → Nat × Nat × List (String × Nat)
  | [], acc => acc
  | f :: rest, (tf, ts, ec) =>
    match f.size with
    | some n => statsLoop rest (tf + 1, ts + n, bump ec (extKey f.name))
    | none => statsLoop rest (tf, ts, ec)

/-- Method `FileAnalyzer.get_file_stats`. -/
def get_file_stats (ws : List FileEntry) : FileStatsSummary :=
  let r := statsLoop ws (0, 0, [])
  { total_files := r.1
    total_size_bytes := r.2.1
    total_size_mb := sizeMB r.2.1
    extensions_count := r.2.2 }

/-- One element of the list returned by `FileAnalyzer.find_large_files`. -/
structure LargeFileEntry where
  path : String
  size_bytes : Nat
  size_mb : ℚ
deriving DecidableEq, Repr

/-- The collection loop of `find_large_files`, before sorting: keep every
accessible file whose size is at least `min_size_mb * 1024 * 1024` bytes, in
encounter order. -/
def collectLarge (min_size_mb : ℚ) (ws : List FileEntry) : List LargeFileEntry :=
  ws.filterMap fun f =>
    match f.size with
    | none => none
    | some n =>
      if min_size_mb * (1024 * 1024) ≤ (n : ℚ) then
        some { path := f.path, size_bytes := n, size_mb := sizeMB n }
      else none

/-- The comparison used by the sort of `find_large_files` (sorted by the
size_bytes key, reverse=True): `a` may stay before `b` when the size of `a`
is at least that of `b`, so the stable sort keeps encounter order on ties. -/
def bySizeDesc (a b : LargeFileEntry) : Bool :=
  decide (b.size_bytes ≤ a.size_bytes)

/-- Method `FileAnalyzer.find_large_files`: collect, then stable-sort by
`size_bytes` descending. -/
def find_large_files (min_size_mb : ℚ) (ws : List FileEntry) : List LargeFileEntry :=
  (collectLarge min_size_mb ws).mergeSort bySizeDesc

/-- The report dictionary assembled by `FileAnalyzer.generate_report`: its
top-level fields are exactly `directory`, `statistics`, `files_by_extension`
and `large_files`. -/
structure Report where
  directory : String
  statistics : FileStatsSummary
  files_by_extension : List (String × List String)
  large_files : List LargeFileEntry
deriving DecidableEq, Repr

/-- Substring test on character lists: `leadMatch n h` is true when `n` is a
leading segment of `h`. -/
def leadMatch : List Char → List Char → Bool
  | [], _ => true
  | _ :: _, [] => false
  | a :: as, b :: bs => a = b && leadMatch as bs

/-- Prefix test on strings. -/
def strStarts (p s : String) : Bool :=
  leadMatch p.toList s.toList

/-- Suffix test on strings. -/
def strEnds (p s : String) : Bool :=
  leadMatch p.toList.reverse s.toList.reverse

/-- Call `os.path.join(a, b)` for two components on a POSIX platform. -/
def joinPath (a b : String) : String :=
  if strStarts "/" b then b
  else if a = "" || strEnds "/" a then a ++ b
  else a ++ "/" ++ b

/-- Call `os.path.isabs` on a POSIX platform. -/
def isAbsolutePath (s : String) : Bool :=
  strStarts "/" s

/-- Method `FileAnalyzer.generate_report`: assemble the report (stats, unfiltered
grouping, large files at the default 10.0 MB threshold truncated to the
first 10 entries) and the output path `os.path.join(self.directory,
output_file)` it is written to and which is returned. -/
def generate_report (directory : String) (ws : List FileEntry)
    (output_file : String) : Report × String :=
  ({ directory := directory
     statistics := get_file_stats ws
     files_by_extension := get_files_by_extension none ws
     large_files := (find_large_files 10 ws).take 10 },
   joinPath directory output_file)

/-- What the constructor observes about its argument path:
`os.path.exists` and `os.path.isdir`. -/
structure PathStatus where
  found : Bool
  isDir : Bool
deriving DecidableEq, Repr

/-- Constructor `FileAnalyzer.__init__`: raise `ValueError` (named
`InvalidRootError` by the spec) when the path does not exist or is not a
directory, otherwise store the directory. The error messages are the
Russian strings of the source. -/
def analyzerInit (st : PathStatus) (directory : String) : Except String String :=
  if st.found = false then
    Except.error ("Директория " ++ directory ++ " не существует")
  else if st.isDir = false then
    Except.error (directory ++ " не является директорией")
  else Except.ok directory

/-- Test `hasSub needle hay`: true when `needle` occurs contiguously in
`hay`. -/
def hasSub (needle : List Char) : List Char → Bool
  | [] => needle.isEmpty
  | c :: rest => leadMatch needle (c :: rest) || hasSub needle rest

/-- Test `mentions msg phrase`: the message contains the phrase. -/
def mentions (msg phrase : String) : Bool :=
  hasSub phrase.toList msg.toList

theorem mem_collectLarge {q : ℚ} {ws : List FileEntry} {e : LargeFileEntry} :
    e ∈ collectLarge q ws ↔
      ∃ f ∈ ws, ∃ n : Nat, f.size = some n ∧ q * (1024 * 1024) ≤ (n : ℚ) ∧
        e = { path := f.path, size_bytes := n, size_mb := sizeMB n } := by
  rw [collectLarge, List.mem_filterMap]
  constructor
  · rintro ⟨f, hf, hfe⟩
    refine ⟨f, hf, ?_⟩
    cases hs : f.size with
    | none => rw [hs] at hfe; simp at hfe
    | some n =>
      rw [hs] at hfe
      by_cases hc : q * (1024 * 1024) ≤ (n : ℚ)
      · refine ⟨n, rfl, hc, ?_⟩
        simp only [hc, if_pos] at hfe
        exact (Option.some.inj hfe).symm
      · simp [hc] at hfe
  · rintro ⟨f, hf, n, hn, hc, he⟩
    refine ⟨f, hf, ?_⟩
    rw [hn]
    simp [hc, he]

theorem mem_find_large_files {q : ℚ} {ws : List FileEntry} {e : LargeFileEntry} :
    e ∈ find_large_files q ws ↔
      ∃ f ∈ ws, ∃ n : Nat, f.size = some n ∧ q * (1024 * 1024) ≤ (n : ℚ) ∧
        e = { path := f.path, size_bytes := n, size_mb := sizeMB n } := by
  rw [find_large_files, List.mem_mergeSort]
  exact mem_collectLarge

/-- C1: every size_mb value produced — the total_size_mb of the summary
from computeStats and the size_mb of each findLargeFiles entry — equals the one
uniform rounding `sizeMB` of the corresponding byte count, i.e.
round(size_bytes / 1048576, 2) with a single rounding policy. -/
theorem size_mb_uniform_rounding (ws : List FileEntry) (q : ℚ) :
    (get_file_stats ws).total_size_mb = sizeMB (get_file_stats ws).total_size_bytes ∧
    ∀ e ∈ find_large_files q ws, e.size_mb = sizeMB e.size_bytes := by
  refine ⟨rfl, ?_⟩
  intro e he
  obtain ⟨f, _, n, _, _, he⟩ := mem_find_large_files.mp he
  rw [he]

theorem size_mb_uniform_rounding_witness :
    ({ path := "/d/a.py", size_bytes := 131072, size_mb := sizeMB 131072 } :
        LargeFileEntry).size_mb = sizeMB 131072 :=
  (size_mb_uniform_rounding [⟨"a.py", "/d/a.py", some 131072⟩] 0).2 _
    (mem_find_large_files.mpr
      ⟨⟨"a.py", "/d/a.py", some 131072⟩, by simp, 131072, rfl, by norm_num, rfl⟩)

/-- C3: findLargeFiles includes exactly the accessible files whose byte size
meets the threshold minSizeMB * 1048576; with minSizeMB = 0 every accessible
file is returned. -/
theorem find_large_files_threshold (q : ℚ) (ws : List FileEntry) :
    (∀ e : LargeFileEntry,
        e ∈ find_large_files q ws ↔
          ∃ f ∈ ws, ∃ n : Nat, f.size = some n ∧ q * (1024 * 1024) ≤ (n : ℚ) ∧
            e = { path := f.path, size_bytes := n, size_mb := sizeMB n }) ∧
    (∀ f ∈ ws, ∀ n : Nat, f.size = some n →
        ({ path := f.path, size_bytes := n, size_mb := sizeMB n } : LargeFileEntry)
          ∈ find_large_files 0 ws) := by
  refine ⟨fun e => mem_find_large_files, ?_⟩
  intro f hf n hn
  exact mem_find_large_files.mpr ⟨f, hf, n, hn, by simp, rfl⟩

theorem find_large_files_threshold_witness :
    ({ path := "/d/a", size_bytes := 5, size_mb := sizeMB 5 } : LargeFileEntry)
      ∈ find_large_files 0 [⟨"a", "/d/a", some 5⟩] :=
  (find_large_files_threshold 0 [⟨"a", "/d/a", some 5⟩]).2
    ⟨"a", "/d/a", some 5⟩ (by simp) 5 rfl

theorem statsLoop_append (a b : List FileEntry) (acc : Nat × Nat × List (String × Nat)) :
    statsLoop (a ++ b) acc = statsLoop b (statsLoop a acc) := by
  induction a generalizing acc with
  | nil => rfl
  | cons f rest ih =>
    obtain ⟨tf, ts, ec⟩ := acc
    cases hs : f.size with
    | some n => simp [statsLoop, hs, ih]
    | none => simp [statsLoop, hs, ih]

/-- C7: a file whose size lookup fails with OSError is skipped entirely:
deleting it from the walk changes neither computeStats nor findLargeFiles,
so it contributes to no total and the walk continues over the remaining
entries (both functions are total, so no exception propagates). -/
theorem inaccessible_file_skipped (ws₁ ws₂ : List FileEntry) (f : FileEntry)
    (hf : f.size = none) (q : ℚ) :
    get_file_stats (ws₁ ++ f :: ws₂) = get_file_stats (ws₁ ++ ws₂) ∧
    find_large_files q (ws₁ ++ f :: ws₂) = find_large_files q (ws₁ ++ ws₂) := by
  constructor
  · unfold get_file_stats
    have h : statsLoop (ws₁ ++ f :: ws₂) (0, 0, []) = statsLoop (ws₁ ++ ws₂) (0, 0, []) := by
      rw [statsLoop_append, statsLoop_append]
      obtain ⟨tf, ts, ec⟩ := statsLoop ws₁ (0, 0, [])
      simp [statsLoop, hf]
    rw [h]
  · unfold find_large_files
    congr 1
    unfold collectLarge
    simp [List.filterMap_append, hf]

theorem inaccessible_file_skipped_witness :
    get_file_stats [⟨"x", "/x", none⟩, ⟨"b", "/b", some 1⟩]
        = get_file_stats [⟨"b", "/b", some 1⟩] ∧
    find_large_files 0 [⟨"x", "/x", none⟩, ⟨"b", "/b", some 1⟩]
        = find_large_files 0 [⟨"b", "/b", some 1⟩] :=
  inaccessible_file_skipped [] [⟨"b", "/b", some 1⟩] ⟨"x", "/x", none⟩ rfl 0

/-- C8: the report has exactly the fields directory, statistics,
files_by_extension and large_files (the Report structure), with directory
equal to the analyzer root and large_files the first at most 10 entries of the
sorted findLargeFiles output. -/
theorem generate_report_fields (d : String) (ws : List FileEntry) (o : String) :
    (generate_report d ws o).1.directory = d ∧
    (generate_report d ws o).1.large_files = (find_large_files 10 ws).take 10 ∧
    (generate_report d ws o).1.large_files.length ≤ 10 :=
  ⟨rfl, rfl, List.length_take_le 10 _⟩

theorem bySizeDesc_trans (a b c : LargeFileEntry)
    (h1 : bySizeDesc a b) (h2 : bySizeDesc b c) : bySizeDesc a c := by
  simp only [bySizeDesc, decide_eq_true_eq] at *
  omega

theorem bySizeDesc_total (a b : LargeFileEntry) : bySizeDesc a b || bySizeDesc b a := by
  simp only [bySizeDesc, Bool.or_eq_true, decide_eq_true_eq]
  omega

/-- C2: the findLargeFiles output is sorted non-increasing by size_bytes
(every entry is at least as large as each later one, hence each adjacent
pair), and entries of any fixed size appear exactly as in the traversal
encounter order collected before sorting (stability). -/
theorem find_large_files_sorted_stable (q : ℚ) (ws : List FileEntry) :
    (find_large_files q ws).Pairwise (fun a b => b.size_bytes ≤ a.size_bytes) ∧
    ∀ s : Nat,
      (find_large_files q ws).filter (fun e => decide (e.size_bytes = s))
        = (collectLarge q ws).filter (fun e => decide (e.size_bytes = s)) := by
  constructor
  · have h := List.sorted_mergeSort bySizeDesc_trans bySizeDesc_total (collectLarge q ws)
    exact h.imp (fun hab => by simpa [bySizeDesc] using hab)
  · intro s
    have hsub : List.Sublist
        ((collectLarge q ws).filter (fun e => decide (e.size_bytes = s)))
        ((collectLarge q ws).mergeSort bySizeDesc) := by
      apply List.sublist_mergeSort bySizeDesc_trans bySizeDesc_total
      · apply List.pairwise_of_forall_mem_list
        intro a ha b hb
        have ha' := List.of_mem_filter ha
        have hb' := List.of_mem_filter hb
        simp only [decide_eq_true_eq] at ha' hb'
        simp [bySizeDesc, ha', hb']
      · exact List.filter_sublist _
    have hperm : List.Perm
        (((collectLarge q ws).mergeSort bySizeDesc).filter
          (fun e => decide (e.size_bytes = s)))
        ((collectLarge q ws).filter (fun e => decide (e.size_bytes = s))) :=
      (List.mergeSort_perm (collectLarge q ws) bySizeDesc).filter _
    have hsub2 : List.Sublist
        ((collectLarge q ws).filter (fun e => decide (e.size_bytes = s)))
        (((collectLarge q ws).mergeSort bySizeDesc).filter
          (fun e => decide (e.size_bytes = s))) := by
      have h2 := hsub.filter (fun e => decide (e.size_bytes = s))
      rwa [List.filter_filter, (by funext a; simp : (fun a : LargeFileEntry =>
        decide (a.size_bytes = s) && decide (a.size_bytes = s)) = fun a =>
        decide (a.size_bytes = s))] at h2
    exact (hsub2.eq_of_length hperm.length_eq.symm).symm

theorem groupFind_addToGroup (acc : List (String × List String)) (k k' v : String) :
    groupFind k (addToGroup acc k' v)
      = if k' = k then groupFind k acc ++ [v] else groupFind k acc := by
  induction acc with
  | nil => by_cases h : k' = k <;> simp [addToGroup, groupFind, h]
  | cons kv rest ih =>
    obtain ⟨k₀, vs⟩ := kv
    by_cases h1 : k₀ = k' <;> by_cases h2 : k' = k <;>
      simp_all [addToGroup, groupFind]

theorem groupFind_classify_aux (ws : List FileEntry) (acc : List (String × List String))
    (k : String) :
    groupFind k (ws.foldl
        (fun acc f =>
          let ext := extKey f.name
          if keepExt none ext then addToGroup acc ext f.path else acc)
        acc)
      = groupFind k acc
          ++ (ws.filter (fun f => decide (extKey f.name = k))).map FileEntry.path := by
  induction ws generalizing acc with
  | nil => simp
  | cons f rest ih =>
    rw [List.foldl_cons, ih]
    by_cases h : extKey f.name = k <;>
      simp [keepExt, groupFind_addToGroup, h, List.filter_cons]

/-- C4: classifyByExtension with no filter maps each extension key — the
lower-cased extension with leading dot, empty when absent — to the full
paths of exactly the walked files having that key, in encounter order with
original case preserved; in particular files a.py, b.TXT, c group under
".py", ".txt" and "". -/
theorem classify_by_extension_groups (ws : List FileEntry) (k : String) :
    groupFind k (get_files_by_extension none ws)
        = (ws.filter (fun f => decide (extKey f.name = k))).map FileEntry.path ∧
    get_files_by_extension none
        [⟨"a.py", "/d/a.py", some 15⟩, ⟨"b.TXT", "/d/b.TXT", some 20⟩, ⟨"c", "/d/c", some 5⟩]
      = [(".py", ["/d/a.py"]), (".txt", ["/d/b.TXT"]), ("", ["/d/c"])] := by
  constructor
  · rw [get_files_by_extension, groupFind_classify_aux]
    rfl
  · rfl

theorem statsLoop_fst (ws : List FileEntry) (tf ts : Nat) (ec : List (String × Nat)) :
    (statsLoop ws (tf, ts, ec)).1
      = tf + (ws.filter (fun f => f.size.isSome)).length := by
  induction ws generalizing tf ts ec with
  | nil => simp [statsLoop]
  | cons f rest ih =>
    cases hs : f.size with
    | some n =>
      simp [statsLoop, hs, List.filter_cons, ih]
      omega
    | none => simp [statsLoop, hs, List.filter_cons, ih]

theorem groupSizes_addToGroup (acc : List (String × List String)) (k v : String) :
    ((addToGroup acc k v).map (fun kv => kv.2.length)).sum
      = (acc.map (fun kv => kv.2.length)).sum + 1 := by
  induction acc with
  | nil => simp [addToGroup]
  | cons kv rest ih =>
    obtain ⟨k₀, vs⟩ := kv
    by_cases h : k₀ = k <;> simp [addToGroup, h, ih] <;> omega

theorem groupSizes_classify_aux (ws : List FileEntry) (acc : List (String × List String)) :
    ((ws.foldl
        (fun acc f =>
          let ext := extKey f.name
          if keepExt none ext then addToGroup acc ext f.path else acc)
        acc).map (fun kv => kv.2.length)).sum
      = (acc.map (fun kv => kv.2.length)).sum + ws.length := by
  induction ws generalizing acc with
  | nil => simp
  | cons f rest ih =>
    rw [List.foldl_cons, ih]
    simp [keepExt, groupSizes_addToGroup]
    omega

/-- C5: when every walked file is accessible, computeStats counts exactly
the files that classifyByExtension with no filter distributes over its
buckets: total_files equals the sum of the bucket lengths. -/
theorem total_files_eq_classification_sum (ws : List FileEntry)
    (h : ∀ f ∈ ws, f.size.isSome = true) :
    (get_file_stats ws).total_files
      = ((get_files_by_extension none ws).map (fun kv => kv.2.length)).sum := by
  have hl : (get_file_stats ws).total_files = ws.length := by
    show (statsLoop ws (0, 0, [])).1 = ws.length
    rw [statsLoop_fst, List.filter_eq_self.mpr h]
    omega
  rw [hl, get_files_by_extension, groupSizes_classify_aux]
  simp

theorem total_files_eq_classification_sum_witness :
    (get_file_stats [⟨"a.py", "/d/a.py", some 15⟩, ⟨"c", "/d/c", some 5⟩]).total_files
      = ((get_files_by_extension none
            [⟨"a.py", "/d/a.py", some 15⟩, ⟨"c", "/d/c", some 5⟩]).map
          (fun kv => kv.2.length)).sum :=
  total_files_eq_classification_sum
    [⟨"a.py", "/d/a.py", some 15⟩, ⟨"c", "/d/c", some 5⟩] (by decide)

theorem countsSum_bump (ec : List (String × Nat)) (k : String) :
    ((bump ec k).map (fun kv => kv.2)).sum = (ec.map (fun kv => kv.2)).sum + 1 := by
  induction ec with
  | nil => simp [bump]
  | cons kv rest ih =>
    obtain ⟨k₀, c⟩ := kv
    by_cases h : k₀ = k <;> simp [bump, h, ih] <;> omega

theorem bump_counts_pos (ec : List (String × Nat)) (k : String)
    (h : ∀ kv ∈ ec, 1 ≤ kv.2) : ∀ kv ∈ bump ec k, 1 ≤ kv.2 := by
  induction ec with
  | nil =>
    intro kv hkv
    simp only [bump] at hkv
    rw [List.mem_singleton.mp hkv]
  | cons kv₀ rest ih =>
    obtain ⟨k₀, c⟩ := kv₀
    intro kv hkv
    simp only [bump] at hkv
    by_cases he : k₀ = k
    · rw [if_pos he] at hkv
      rcases List.mem_cons.mp hkv with h1 | h1
      · rw [h1]
        exact Nat.succ_le_succ (Nat.zero_le c)
      · exact h kv (List.mem_cons_of_mem _ h1)
    · rw [if_neg he] at hkv
      rcases List.mem_cons.mp hkv with h1 | h1
      · rw [h1]
        exact h (k₀, c) (List.mem_cons_self _ _)
      · exact ih (fun kv hkv => h kv (List.mem_cons_of_mem _ hkv)) kv h1

theorem statsLoop_countsSum (ws : List FileEntry) (tf ts : Nat) (ec : List (String × Nat)) :
    (((statsLoop ws (tf, ts, ec)).2.2).map (fun kv => kv.2)).sum
      = (ec.map (fun kv => kv.2)).sum + (ws.filter (fun f => f.size.isSome)).length := by
  induction ws generalizing tf ts ec with
  | nil => simp [statsLoop]
  | cons f rest ih =>
    cases hs : f.size with
    | some n =>
      simp [statsLoop, hs, List.filter_cons, ih, countsSum_bump]
      omega
    | none => simp [statsLoop, hs, List.filter_cons, ih]

theorem statsLoop_counts_pos (ws : List FileEntry) (tf ts : Nat) (ec : List (String × Nat))
    (h : ∀ kv ∈ ec, 1 ≤ kv.2) :
    ∀ kv ∈ (statsLoop ws (tf, ts, ec)).2.2, 1 ≤ kv.2 := by
  induction ws generalizing tf ts ec with
  | nil => exact h
  | cons f rest ih =>
    cases hs : f.size with
    | some n =>
      simp only [statsLoop, hs]
      exact ih _ _ _ (bump_counts_pos ec (extKey f.name) h)
    | none =>
      simp only [statsLoop, hs]
      exact ih _ _ _ h

/-- C10: in every computeStats summary, total_files equals the sum of the
per-extension counts (each counted file increments exactly one bucket), and
every recorded count is at least 1. -/
theorem extensions_count_partitions_total (ws : List FileEntry) :
    (((get_file_stats ws).extensions_count).map (fun kv => kv.2)).sum
        = (get_file_stats ws).total_files ∧
    ∀ kv ∈ (get_file_stats ws).extensions_count, 1 ≤ kv.2 := by
  constructor
  · show (((statsLoop ws (0, 0, [])).2.2).map (fun kv => kv.2)).sum
        = (statsLoop ws (0, 0, [])).1
    rw [statsLoop_countsSum, statsLoop_fst]
    simp
  · exact statsLoop_counts_pos ws 0 0 [] (by simp)

theorem extensions_count_partitions_total_witness :
    1 ≤ ((".py", 1) : String × Nat).2 :=
  (extensions_count_partitions_total [⟨"a.py", "/d/a.py", some 3⟩]).2
    (".py", 1) (by decide)

theorem hasSub_append_left (n l₁ l₂ : List Char) (h : hasSub n l₂ = true) :
    hasSub n (l₁ ++ l₂) = true := by
  induction l₁ with
  | nil => simpa using h
  | cons c rest ih =>
    show (leadMatch n (c :: (rest ++ l₂)) || hasSub n (rest ++ l₂)) = true
    rw [ih]
    simp

theorem mentions_append (a b p : String) (h : mentions b p = true) :
    mentions (a ++ b) p = true := by
  show hasSub p.toList (a.toList ++ b.toList) = true
  exact hasSub_append_left _ _ _ h

/-- C6, counterexample to the literal message wording: on a nonexistent
path the constructor raises with the Russian message of the source, which does
not mention the English phrase "does not exist". -/
theorem analyzerInit_english_wording_counterexample :
    analyzerInit { found := false, isDir := false } "/missing"
        = Except.error "Директория /missing не существует" ∧
    mentions "Директория /missing не существует" "does not exist" = false ∧
    mentions "Директория /missing не существует" "не существует" = true :=
  ⟨rfl, rfl, rfl⟩

/-- C6 (amended): construction fails exactly when the path does not exist
or is not a directory — with the nonexistence message mentioning
"не существует" ("does not exist") and the non-directory message mentioning
"не является директорией" ("is not a directory") — and succeeds, raising
nothing, on every existing directory. -/
theorem analyzerInit_contract (st : PathStatus) (d : String) :
    ((∃ r, analyzerInit st d = Except.ok r) ↔ (st.found = true ∧ st.isDir = true)) ∧
    (st.found = false →
      ∃ msg, analyzerInit st d = Except.error msg ∧
        mentions msg "не существует" = true) ∧
    (st.found = true → st.isDir = false →
      ∃ msg, analyzerInit st d = Except.error msg ∧
        mentions msg "не является директорией" = true) ∧
    (st.found = true → st.isDir = true → analyzerInit st d = Except.ok d) := by
  obtain ⟨fnd, dir⟩ := st
  have hm1 : mentions ("Директория " ++ d ++ " не существует") "не существует" = true :=
    mentions_append ("Директория " ++ d) " не существует" "не существует" (by rfl)
  have hm2 : mentions (d ++ " не является директорией") "не является директорией" = true :=
    mentions_append d " не является директорией" "не является директорией" (by rfl)
  cases fnd <;> cases dir <;>
    simp_all [analyzerInit]

theorem analyzerInit_contract_witness :
    (∃ msg, analyzerInit { found := false, isDir := false } "/missing"
        = Except.error msg ∧ mentions msg "не существует" = true) ∧
    analyzerInit { found := true, isDir := true } "/srv" = Except.ok "/srv" :=
  ⟨(analyzerInit_contract { found := false, isDir := false } "/missing").2.1 rfl,
   (analyzerInit_contract { found := true, isDir := true } "/srv").2.2.2 rfl rfl⟩

theorem leadMatch_single_append (c : Char) (l₁ l₂ : List Char)
    (h : leadMatch [c] l₁ = true) : leadMatch [c] (l₁ ++ l₂) = true := by
  cases l₁ with
  | nil => simp [leadMatch] at h
  | cons a as =>
    simp only [leadMatch, List.cons_append] at h ⊢
    simpa using h

/-- C9, counterexample to "returns the absolute path": on the relative root
"." the returned path "./file_report.json" is not absolute. -/
theorem generate_report_relative_counterexample :
    (generate_report "." [] "file_report.json").2 = "./file_report.json" ∧
    isAbsolutePath (generate_report "." [] "file_report.json").2 = false :=
  ⟨rfl, rfl⟩

/-- C9 (amended): generateReport writes the report to, and returns, the
joined path root/outputFileName (open mode "w", which overwrites any
existing file there); the returned path is absolute whenever the root is
absolute, but stays relative for a relative root. -/
theorem generate_report_returns_joined_path (d : String) (ws : List FileEntry)
    (o : String) :
    (generate_report d ws o).2 = joinPath d o ∧
    (isAbsolutePath d = true → isAbsolutePath (generate_report d ws o).2 = true) := by
  refine ⟨rfl, ?_⟩
  intro h
  show isAbsolutePath (joinPath d o) = true
  rw [joinPath]
  by_cases hb : strStarts "/" o
  · rw [if_pos hb]
    exact hb
  · rw [if_neg hb]
    by_cases hd : (decide (d = "") || strEnds "/" d) = true
    · rw [if_pos hd]
      exact leadMatch_single_append '/' d.toList o.toList h
    · rw [if_neg hd]
      show leadMatch ['/'] ((d ++ "/" ++ o).toList) = true
      have h2 : (d ++ "/" ++ o).toList = (d.toList ++ ['/']) ++ o.toList := by
        simp [String.toList, String.data_append]
      rw [h2]
      exact leadMatch_single_append '/' _ _
        (leadMatch_single_append '/' d.toList ['/'] h)

theorem generate_report_returns_joined_path_witness :
    (generate_report "/tmp" [] "r.json").2 = joinPath "/tmp" "r.json" ∧
    isAbsolutePath (generate_report "/tmp" [] "r.json").2 = true :=
  ⟨(generate_report_returns_joined_path "/tmp" [] "r.json").1,
   (generate_report_returns_joined_path "/tmp" [] "r.json").2 rfl⟩
